import Mathlib

/-!
Verification development for the express-request-logger middleware
(src/lib/express-request-logger.js).

The middleware keeps one mutable log record per request, schedules a
delayed "pending" write, reclassifies the record at completion and
performs a final key-value store write, deleting a stale key when the
type changed.  The definitions below are a shallow embedding of that
code: JavaScript in-place mutation becomes explicit state passing on a
`St` record, the Redis store becomes an association list of keys to
serialized values, and every store operation the code issues is also
appended to an operation log `olog` so that theorems can speak about
which operations were issued and in which order.
-/

/-- Log types `"p"`, `"c"`, `"s"`, `"e"` (pending, completed, slow, error). -/
inductive LType
  | p
  | c
  | s
  | e
deriving DecidableEq, Repr

/-- String form of a record's `type` field as used when building keys.
`none` models the JavaScript value `undefined` (string-concatenates to
`"undefined"`). -/
def typeStr : Option LType → String
  | some LType.p => "p"
  | some LType.c => "c"
  | some LType.s => "s"
  | some LType.e => "e"
  | none => "undefined"

/-- The record's `id` field: `null` initially, `undefined` after a failed
`incr` callback, or the number returned by Redis `INCR`. -/
inductive IdVal
  | null
  | undef
  | num (n : Nat)
deriving DecidableEq, Repr

/-- String form of the id, as produced by JavaScript string concatenation. -/
def idStr : IdVal → String
  | IdVal.null => "null"
  | IdVal.undef => "undefined"
  | IdVal.num n => toString n

/-- A JavaScript value stored in `info.error`.  `plainObj` is a plain
structured object (carrying its JSON serialization), `strVal` a string,
`numVal` a number, `exotic` a non-plain object such as an `Error`
instance (carrying its string coercion). -/
inductive EVal
  | plainObj (json : String)
  | strVal (s : String)
  | numVal (n : Int)
  | exotic (str : String)
deriving DecidableEq, Repr

/-- JavaScript truthiness of an error value. -/
def evTruthy : EVal → Bool
  | EVal.plainObj _ => true
  | EVal.strVal s => s ≠ ""
  | EVal.numVal n => n ≠ 0
  | EVal.exotic _ => true

/-- Truthiness of `info.error` including absence (`undefined` is falsy). -/
def evTruthyO : Option EVal → Bool
  | none => false
  | some e => evTruthy e

/-- Model of lodash `_.isPlainObject`. -/
def isPlainE : EVal → Bool
  | EVal.plainObj _ => true
  | _ => false

/-- JavaScript string coercion `"" + error`. -/
def evToString : EVal → String
  | EVal.plainObj _ => "[object Object]"
  | EVal.strVal s => s
  | EVal.numVal n => toString n
  | EVal.exotic s => s

/-- Rendering of a rational as a JSON number in the serialized record.
An abstraction of JavaScript number printing; injective on the values we
use. -/
def qStr (q : ℚ) : String :=
  toString q.num ++ (if q.den = 1 then "" else "/" ++ toString q.den)

/-- The mutable `info` object attached to `res.rLog`. -/
structure Info where
  url : String
  method : String
  body : String
  language : String
  time : ℚ
  ip : String
  referer : Option String
  userAgent : Option String
  duration : Option ℚ
  status : Option Nat
  error : Option EVal
deriving DecidableEq, Repr

/-- JSON string quoting (escaping elided; the fields we use contain no
quotes). -/
def jstr (str : String) : String := "\"" ++ str ++ "\""

/-- Serialization of an `info.error` value inside `JSON.stringify`. -/
def errJson : EVal → String
  | EVal.plainObj j => j
  | EVal.strVal s => jstr s
  | EVal.numVal n => toString n
  | EVal.exotic _ => "\x7b\x7d"

/-- An optional JSON field: omitted when the value is `undefined`. -/
def optField (name : String) (v : Option String) : String :=
  match v with
  | some s => ",\"" ++ name ++ "\":" ++ s
  | none => ""

/-- Model of `JSON.stringify(record.info)` for the fixed shape of `info`.
`duration` is serialized quoted because the code stores the string
returned by `toPrecision(3)`. -/
def stringifyInfo (i : Info) : String :=
  "\x7b\"url\":" ++ jstr i.url ++ ",\"method\":" ++ jstr i.method ++
  ",\"body\":" ++ jstr i.body ++ ",\"language\":" ++ jstr i.language ++
  ",\"time\":" ++ qStr i.time ++ ",\"ip\":" ++ jstr i.ip ++
  optField "referer" (i.referer.map jstr) ++
  optField "userAgent" (i.userAgent.map jstr) ++
  optField "duration" (i.duration.map (fun d => jstr (qStr d))) ++
  optField "status" (i.status.map (fun n => toString n)) ++
  optField "error" (i.error.map errJson) ++ "\x7d"

/-- The serialization step of `processLog` (lines 141-154): if
`record.info.error` is truthy and not a plain object, it is replaced by
its string coercion before `JSON.stringify` and restored afterwards.
Returns the serialized text together with the `info` object as it is
left in memory after the write. -/
def serializeForWrite (i : Info) : String × Info :=
  match i.error with
  | some e =>
    if evTruthy e = true then
      if isPlainE e = true then (stringifyInfo i, i)
      else
        let i1 : Info := { i with error := some (EVal.strVal (evToString e)) }
        (stringifyInfo i1, { i1 with error := some e })
    else (stringifyInfo i, i)
  | none => (stringifyInfo i, i)

/-- Default redis log TTLs per log type (source lines 9-14). -/
def defaultTtls : LType → Int
  | LType.p => 10 * 24 * 3600
  | LType.c => 24 * 3600
  | LType.s => 10 * 24 * 3600
  | LType.e => 10 * 24 * 3600

/-- TTL selection `(options.ttl && options.ttl[type]) || defaultTtls[type]`
(line 156).  A present-but-zero per-type entry is falsy in JavaScript and
falls through `||` to the default.  The `none` type case is unreachable:
a write always happens with the type set. -/
def expireFor (ttlO : Option (LType → Option Int)) (ty : Option LType) : Int :=
  match ty with
  | none => 0
  | some t =>
    match ttlO with
    | some f =>
      match f t with
      | some v => if v = 0 then defaultTtls t else v
      | none => defaultTtls t
    | none => defaultTtls t

/-- The per-request log record `res.rLog`. -/
structure LogRecord where
  id : IdVal
  info : Info
  type : Option LType
deriving DecidableEq, Repr

/-- Configuration options recognized by `configure`. -/
structure Options where
  ttl : Option (LType → Option Int)
  slowTime : Option ℚ
  logTypes : Option (List LType)
  mustLogO : Option (LogRecord → Bool)

/-- The effective slow threshold:
`options.hasOwnProperty('slowTime') ? options.slowTime : defaultSlowTime`
(line 277), with `defaultSlowTime = 1.0`. -/
def slowTimeOf (opts : Options) : ℚ :=
  match opts.slowTime with
  | some s => s
  | none => 1

/-- JavaScript comparison `info.duration > slowTime`: `undefined`
compares false against any number. -/
def durGtB : Option ℚ → ℚ → Bool
  | some d, s => decide (s < d)
  | none, _ => false

/-- `setLogType` (source lines 271-286): `'e'` on truthy `info.error`,
else `'s'` when the slow threshold is nonzero (truthy) and
`info.duration` exceeds it, else `'c'`. -/
def setLogType (opts : Options) (i : Info) : LType :=
  if evTruthyO i.error = true then LType.e
  else if slowTimeOf opts ≠ 0 ∧ durGtB i.duration (slowTimeOf opts) = true then LType.s
  else LType.c

/-- The default `mustLog` predicate (lines 104-112): a caller-supplied
predicate if configured, else membership of the record's type in
`options.logTypes` when that allow-list is given, else `true`. -/
def mustLogB (opts : Options) (r : LogRecord) : Bool :=
  match opts.mustLogO with
  | some f => f r
  | none =>
    match opts.logTypes with
    | some l =>
      match r.type with
      | some t => decide (t ∈ l)
      | none => false
    | none => true

/-- A store operation issued by the middleware. -/
inductive StoreOp
  | setexOp (key : String) (expiry : Int) (val : String)
  | delOp (key : String)
deriving DecidableEq, Repr

/-- `prefix + type + ":" + record.id` (JavaScript string concatenation). -/
def buildKey (pfx : String) (ty : Option LType) (id : IdVal) : String :=
  pfx ++ typeStr ty ++ ":" ++ idStr id

/-- Remove a key from the store (Redis `DEL`). -/
def storeDel (s : List (String × String)) (k : String) : List (String × String) :=
  s.filter (fun kv => kv.1 ≠ k)

/-- Write a key (Redis `SETEX`), replacing any previous value. -/
def storeSet (s : List (String × String)) (k : String) (v : String) :
    List (String × String) :=
  (k, v) :: s.filter (fun kv => kv.1 ≠ k)

/-- State of one request's logging: the record (or `none` once discarded),
whether the delayed write timer is still pending, the `currentType`
closure variable, whether the finish handler has run, the store contents
restricted to this request, and the log of issued store operations. -/
structure St where
  rLog : Option LogRecord
  writeTimeout : Bool
  currentType : Option LType
  finished : Bool
  store : List (String × String)
  olog : List StoreOp
deriving DecidableEq, Repr

/-- The deletion ops issued by `processLog` (lines 130-137): when a prior
write exists (`currentType` truthy) under a different type, delete
`prefix + currentType + ":" + record.id` — note: built with the record's
current id. -/
def delOpsOf (pfx : String) (ct : Option LType) (r : LogRecord) : List StoreOp :=
  match ct with
  | some old => if some old ≠ r.type then [StoreOp.delOp (buildKey pfx (some old) r.id)] else []
  | none => []

/-- The store contents after the conditional stale-key delete of
`processLog` (lines 130-137). -/
def storeAfterDel (pfx : String) (ct : Option LType) (r : LogRecord)
    (s : List (String × String)) : List (String × String) :=
  match ct with
  | some old => if some old ≠ r.type then storeDel s (buildKey pfx (some old) r.id) else s
  | none => s

/-- `processLog` (source lines 121-164): skip when the record is gone or
`mustLog` rejects it; otherwise delete the stale key if the type
changed, serialize (with the error-field dance), `SETEX` the new key
with the selected TTL, and remember the written type in `currentType`. -/
def processLog (opts : Options) (pfx : String) (st : St) : St :=
  match st.rLog with
  | none => st
  | some r =>
    if mustLogB opts r = true then
      let ty := r.type
      let dOps := delOpsOf pfx st.currentType r
      let store1 := storeAfterDel pfx st.currentType r st.store
      let k := buildKey pfx ty r.id
      let sw := serializeForWrite r.info
      { rLog := some { r with info := sw.2 },
        writeTimeout := st.writeTimeout,
        currentType := ty,
        finished := st.finished,
        store := storeSet store1 k sw.1,
        olog := st.olog ++ dOps ++ [StoreOp.setexOp k (expireFor opts.ttl ty) sw.1] }
    else st

/-- `res.rLog.ignore` (lines 200-205): cancel the scheduled write and
discard the record. -/
def ignoreStep (st : St) : St :=
  { st with rLog := none, writeTimeout := false }

/-- The delayed-write timer callback (lines 181-187): if it fires (it was
not canceled) and the record exists, set type `"p"` and write. -/
def timerStep (opts : Options) (pfx : String) (st : St) : St :=
  if st.writeTimeout = true then
    match st.rLog with
    | some r =>
      processLog opts pfx
        { st with rLog := some { r with type := some LType.p }, writeTimeout := false }
    | none => { st with writeTimeout := false }
  else st

/-- `res.rLog.update` (lines 191-197): a no-op while the delayed write is
still scheduled or after discard; otherwise reclassify and write. -/
def updateStep (opts : Options) (pfx : String) (st : St) : St :=
  match st.rLog with
  | some r =>
    if st.writeTimeout = false then
      processLog opts pfx
        { st with rLog := some { r with type := some (setLogType opts r.info) } }
    else st
  | none => st

/-- The decimal exponent of a positive rational: for `0 < x`, the unique
`e` with `10 ^ e ≤ x < 10 ^ (e + 1)`. -/
def qExp (x : ℚ) : Int :=
  if 1 ≤ x then (Nat.log 10 (Int.toNat ⌊x⌋) : Int)
  else -(Nat.clog 10 (Int.toNat ⌈x⁻¹⌉) : Int)

/-- Rounding of a positive rational to 3 significant decimal digits,
ties away from zero. -/
def toPrecPos (x : ℚ) : ℚ :=
  let e := qExp x
  ((⌊x * 10 ^ ((2 : Int) - e) + 1 / 2⌋ : Int) : ℚ) * 10 ^ (e - (2 : Int))

/-- Model of JavaScript `x.toPrecision(3)` (as a numeric value; the code
stores its string rendering). -/
def toPrecision3 (x : ℚ) : ℚ :=
  if x = 0 then 0
  else if 0 < x then toPrecPos x
  else -toPrecPos (-x)

/-- The `res.once('finish')` handler (lines 211-235): classify (before
the duration is computed!), possibly self-ignore when `mustLog` rejects,
then cancel the timer, set `info.duration = (now - info.time).toPrecision(3)`
and `info.status`, and signal task completion. -/
def finishStep (opts : Options) (st : St) (now : ℚ) (statusCode : Nat) : St :=
  let st1 :=
    match st.rLog with
    | some r =>
      let r1 := { r with type := some (setLogType opts r.info) }
      if mustLogB opts r1 = true then { st with rLog := some r1 }
      else ignoreStep { st with rLog := some r1 }
    | none => st
  let st2 :=
    match st1.rLog with
    | some r =>
      { st1 with
        writeTimeout := false,
        rLog := some { r with info :=
          { r.info with
            duration := some (toPrecision3 (now - r.info.time)),
            status := some statusCode } } }
    | none => st1
  { st2 with finished := true }

/-- The `getNextId` callback assigning `res.rLog.id` (line 254). -/
def idStep (st : St) (v : IdVal) : St :=
  match st.rLog with
  | some r => { st with rLog := some { r with id := v } }
  | none => st

/-- The `async.parallel` completion callback (lines 262-266): write only
when no task reported an error. -/
def parallelStep (opts : Options) (pfx : String) (err : Bool) (st : St) : St :=
  if err = true then st else processLog opts pfx st

/-- The asynchronous events that can act on one request's logging state.
`rfinish` carries the completion wall-clock time and the response status
code; `parallelDone` carries whether a task reported an error. -/
inductive Event
  | timerFire
  | doUpdate
  | doIgnore
  | rfinish (now : ℚ) (statusCode : Nat)
  | idAssigned (v : IdVal)
  | parallelDone (err : Bool)
deriving DecidableEq

/-- One event's effect on the logging state. -/
def step (opts : Options) (pfx : String) (st : St) : Event → St
  | Event.timerFire => timerStep opts pfx st
  | Event.doUpdate => updateStep opts pfx st
  | Event.doIgnore => ignoreStep st
  | Event.rfinish now statusCode => finishStep opts st now statusCode
  | Event.idAssigned v => idStep st v
  | Event.parallelDone err => parallelStep opts pfx err st

/-- Run a sequence of events. -/
def run (opts : Options) (pfx : String) (st : St) : List Event → St
  | [] => st
  | e :: es => run opts pfx (step opts pfx st e) es

/-- Schedulability of a single event: `parallelDone` only fires after the
finish handler ran (`async.parallel` waits for both tasks), and
`idAssigned` only while no write has landed yet (the id is assigned at
most once, by the `incr` callback; this is the side condition under
which the single-entry invariant holds). -/
def goodEv (st : St) : Event → Bool
  | Event.idAssigned _ => st.store.isEmpty
  | Event.parallelDone _ => st.finished
  | _ => true

/-- Schedulability of an event sequence from a given state. -/
def goodRunB (opts : Options) (pfx : String) (st : St) : List Event → Bool
  | [] => true
  | e :: es => goodEv st e && goodRunB opts pfx (step opts pfx st e) es

/-- The store part of the single-entry invariant: no entry before the
first write; after a write, exactly the key of the last written type
(built with the record's current id while the record lives). -/
def storeOkB (pfx : String) (st : St) : Bool :=
  match st.currentType with
  | none => st.store.isEmpty
  | some t =>
    match st.rLog with
    | some r => st.store.map Prod.fst == [buildKey pfx (some t) r.id]
    | none => st.store.length == 1

/-- After the finish handler ran, a surviving record has its type set. -/
def typedOkB (st : St) : Bool :=
  !st.finished ||
    (match st.rLog with
     | some r => r.type.isSome
     | none => true)

/-- The single-entry invariant. -/
def invB (pfx : String) (st : St) : Bool :=
  storeOkB pfx st && typedOkB st

/-- The initial state of a request's logging, as set up in lines 166-187:
record present with `id: null`, no type yet, delayed write scheduled,
nothing written. -/
def initSt (i : Info) : St :=
  { rLog := some { id := IdVal.null, info := i, type := none },
    writeTimeout := true,
    currentType := none,
    finished := false,
    store := [],
    olog := [] }

/-- A JavaScript value supplied as `options.projectName`. -/
inductive JsVal
  | strV (s : String)
  | numV (n : Int)
deriving DecidableEq

/-- Truthiness of the supplied `projectName`. -/
def jsTruthy : Option JsVal → Bool
  | none => false
  | some (JsVal.strV s) => s ≠ ""
  | some (JsVal.numV n) => n ≠ 0

/-- Model of lodash `_.isString(options.projectName)`. -/
def isStringV : Option JsVal → Bool
  | some (JsVal.strV _) => true
  | _ => false

/-- One character of the case-insensitive class `[a-z_\-. ]`. -/
def allowedChar (ch : Char) : Bool :=
  ch.isAlpha || ch = '_' || ch = '-' || ch = '.' || ch = ' '

/-- Model of `/^[a-z_\-\. ]+$/i.test(s)`. -/
def matchesPName (str : String) : Bool :=
  str.length ≥ 1 && str.data.all allowedChar

/-- The validation guard of `configure` (lines 38-40): throw when the
project name is falsy, not a string, or fails the pattern. -/
def configureThrows (pn : Option JsVal) : Bool :=
  !jsTruthy pn || !isStringV pn ||
    (match pn with
     | some (JsVal.strV str) => !matchesPName str
     | _ => true)

/-- Whether the first character list is a leading segment of the second. -/
def listPrefixB : List Char → List Char → Bool
  | [], _ => true
  | _ :: _, [] => false
  | a :: as, b :: bs => a == b && listPrefixB as bs

/-- Whether the first character list occurs contiguously in the second. -/
def listInfixB (n : List Char) : List Char → Bool
  | [] => listPrefixB n []
  | b :: bs => listPrefixB n (b :: bs) || listInfixB n bs

/-- Model of `haystack.indexOf(needle) >= 0`. -/
def containsSub (needle hay : String) : Bool :=
  listInfixB needle.data hay.data

/-- A Redis client error (`err.message` may be absent). -/
structure RErr where
  message : Option String
deriving DecidableEq, Repr

/-- The connection-outage test of lines 243: `err.message` exists and
contains both `"Redis connection to"` and `"failed - connect"`. -/
def isConnFail (e : RErr) : Bool :=
  match e.message with
  | some m => containsSub "Redis connection to" m && containsSub "failed - connect" m
  | none => false

/-- Observable outcome of the `getNextId` callback (lines 241-256):
the sequence of invocations of the task continuation `cb` (each carrying
the error it was passed, if any), the value assigned to `res.rLog.id`,
whether `connectionLost` was set, and the scheduled cooldown in
milliseconds. -/
structure IdCbOut where
  cbCalls : List (Option RErr)
  newId : IdVal
  setConnLost : Bool
  cooldownMs : Option Nat
deriving DecidableEq, Repr

/-- The `getNextId` callback: on error, optionally trip the circuit
breaker, call `cb(err)` — and then fall through (no `return`) to assign
the `undefined` id and call `cb()` a second time.  On success, assign
the id and call `cb()` once. -/
def getNextIdCallback (result : Except RErr Nat) : IdCbOut :=
  match result with
  | Except.error e =>
    { cbCalls := [some e, none],
      newId := IdVal.undef,
      setConnLost := isConnFail e,
      cooldownMs := if isConnFail e = true then some 300000 else none }
  | Except.ok n =>
    { cbCalls := [none],
      newId := IdVal.num n,
      setConnLost := false,
      cooldownMs := none }

/-- The error handed to the `async.parallel` completion callback: the
first error any task passed to its continuation. -/
def firstErr (calls : List (Option RErr)) : Option RErr :=
  (calls.filterMap id).head?

/-- Whether the completion callback performs the final `processLog`
(line 263: `if (!err)`). -/
def finalWriteRuns (calls : List (Option RErr)) : Bool :=
  firstErr calls == none

/-- The middleware entry guard (lines 79-89): with `connectionLost` set,
or for `OPTIONS`/`HEAD`, no logging pipeline (and no store access) is
set up for the request. -/
def middlewareEntry (connectionLost : Bool) (method : String) : Bool :=
  if connectionLost = true then false
  else if method == "OPTIONS" || method == "HEAD" then false
  else true

/-! ## Concrete fixtures used by counterexamples and witnesses -/

/-- Default configuration: no per-type TTL overrides, default slow
threshold, no allow-list, default `mustLog`. -/
def optsD : Options :=
  { ttl := none, slowTime := none, logTypes := none, mustLogO := none }

/-- A concrete key prefix `rLog:<project>:`. -/
def pfxD : String := "rLog:proj:"

/-- A concrete `info` captured at request start (time 100 s). -/
def infoD : Info :=
  { url := "/a", method := "GET", body := "", language := "en",
    time := 100, ip := "10.0.0.1", referer := none, userAgent := none,
    duration := none, status := none, error := none }

/-! ## Helper lemmas -/

/-- The error field is restored after serialization: `processLog` leaves
`info` unchanged in memory. -/
theorem serializeForWrite_snd (i : Info) : (serializeForWrite i).2 = i := by
  unfold serializeForWrite
  cases he : i.error with
  | none => rfl
  | some e =>
    by_cases ht : evTruthy e = true
    · by_cases hp : isPlainE e = true
      · simp [ht, hp]
      · simp [ht, hp]
        cases i
        simp_all
    · simp [ht]

/-- A skipped `processLog` (record discarded). -/
theorem processLog_none (opts : Options) (pfx : String) (st : St)
    (h : st.rLog = none) : processLog opts pfx st = st := by
  simp [processLog, h]

/-- A skipped `processLog` (`mustLog` rejected the record). -/
theorem processLog_reject (opts : Options) (pfx : String) (st : St)
    (r : LogRecord) (hr : st.rLog = some r) (hm : mustLogB opts r = false) :
    processLog opts pfx st = st := by
  simp [processLog, hr, hm]

/-- The operations issued by a performed write: the stale-key deletions,
then the `SETEX` of the new key with the selected TTL. -/
theorem processLog_olog (opts : Options) (pfx : String) (st : St)
    (r : LogRecord) (hr : st.rLog = some r) (hm : mustLogB opts r = true) :
    (processLog opts pfx st).olog = st.olog ++ delOpsOf pfx st.currentType r ++
      [StoreOp.setexOp (buildKey pfx r.type r.id) (expireFor opts.ttl r.type)
        (serializeForWrite r.info).1] := by
  simp [processLog, hr, hm]

/-- The record after a performed write: only `info` is touched, and it is
restored to its original value. -/
theorem processLog_rLog (opts : Options) (pfx : String) (st : St)
    (r : LogRecord) (hr : st.rLog = some r) (hm : mustLogB opts r = true) :
    (processLog opts pfx st).rLog = some r := by
  simp [processLog, hr, hm, serializeForWrite_snd]

/-- With no custom predicate and no allow-list, `mustLog` accepts every
record. -/
theorem mustLogB_default (opts : Options) (h1 : opts.mustLogO = none)
    (h2 : opts.logTypes = none) (r : LogRecord) : mustLogB opts r = true := by
  simp [mustLogB, h1, h2]

/-- `toPrecision(3)` of a nonnegative value is nonnegative. -/
theorem toPrecision3_nonneg (x : ℚ) (hx : 0 ≤ x) : 0 ≤ toPrecision3 x := by
  unfold toPrecision3
  rcases eq_or_lt_of_le hx with h | h
  · simp [← h]
  · rw [if_neg (ne_of_gt h), if_pos h]
    unfold toPrecPos
    have h1 : (0 : ℚ) < x * 10 ^ ((2 : Int) - qExp x) + 1 / 2 := by positivity
    have h2 : (0 : Int) ≤ ⌊x * 10 ^ ((2 : Int) - qExp x) + 1 / 2⌋ :=
      Int.floor_nonneg.mpr (le_of_lt h1)
    have h3 : (0 : ℚ) < (10 : ℚ) ^ (qExp x - (2 : Int)) := by positivity
    exact mul_nonneg (by exact_mod_cast h2) (le_of_lt h3)

/-! ## Claims -/

/-- Claim C9: `configure` raises a fatal configuration error iff the
supplied `projectName` is missing, not a string, or fails the
case-insensitive pattern `^[a-z_\-. ]+$`; every name matching the
pattern is accepted. -/
theorem claim_C9 :
    (∀ pn, configureThrows pn = true ↔
      (pn = none ∨ isStringV pn = false ∨
        ∃ str, pn = some (JsVal.strV str) ∧ matchesPName str = false)) ∧
    (∀ str, matchesPName str = true →
      configureThrows (some (JsVal.strV str)) = false) := by
  constructor
  · intro pn
    match pn with
    | none => simp [configureThrows, jsTruthy, isStringV]
    | some (JsVal.numV n) => simp [configureThrows, isStringV]
    | some (JsVal.strV s) =>
      by_cases hs : s = ""
      · subst hs
        simp [configureThrows, jsTruthy, isStringV]
        decide
      · have h1 : matchesPName s = true → s ≠ "" := by
          intro _ h; exact hs h
        simp [configureThrows, jsTruthy, isStringV, hs]
  · intro str h
    have hne : str ≠ "" := by
      intro h0
      rw [h0] at h
      exact absurd h (by decide)
    simp [configureThrows, jsTruthy, isStringV, hne, h]

/-- Claim C9 witness: a concrete valid project name is accepted. -/
theorem claim_C9_witness :
    configureThrows (some (JsVal.strV "my-project")) = false :=
  claim_C9.2 "my-project" (by decide)

/-- Claim C10: on a failed increment the callback invokes the task
continuation with the error, then falls through (no `return`), assigns
the `undefined` id and invokes the continuation a second time; the final
write is still skipped because `async.parallel` saw the error. -/
theorem claim_C10 : ∀ e : RErr,
    (getNextIdCallback (Except.error e)).cbCalls = [some e, none] ∧
    (getNextIdCallback (Except.error e)).newId = IdVal.undef ∧
    finalWriteRuns (getNextIdCallback (Except.error e)).cbCalls = false := by
  intro e
  exact ⟨rfl, rfl, rfl⟩

/-- Claim C8: on a connection-level increment failure, the final write
for the record is skipped, `connectionLost` is set with a 5-minute
(300000 ms) reset scheduled, entry under `connectionLost` performs no
logging for subsequent requests, and logging resumes once the flag is
cleared. -/
theorem claim_C8 : ∀ (e : RErr) (m : String),
    isConnFail e = true →
    (getNextIdCallback (Except.error e)).setConnLost = true ∧
    (getNextIdCallback (Except.error e)).cooldownMs = some 300000 ∧
    finalWriteRuns (getNextIdCallback (Except.error e)).cbCalls = false ∧
    middlewareEntry true m = false ∧
    middlewareEntry false "GET" = true := by
  intro e m h
  exact ⟨by simp [getNextIdCallback, h], by simp [getNextIdCallback, h],
    rfl, rfl, rfl⟩

/-- Claim C8 witness: a concrete connection-failure message. -/
theorem claim_C8_witness :
    (getNextIdCallback (Except.error
      { message := some "Redis connection to 18.185.17.24:6379 failed - connect ECONNREFUSED" })).setConnLost = true ∧
    (getNextIdCallback (Except.error
      { message := some "Redis connection to 18.185.17.24:6379 failed - connect ECONNREFUSED" })).cooldownMs = some 300000 ∧
    finalWriteRuns (getNextIdCallback (Except.error
      { message := some "Redis connection to 18.185.17.24:6379 failed - connect ECONNREFUSED" })).cbCalls = false ∧
    middlewareEntry true "GET" = false ∧
    middlewareEntry false "GET" = true :=
  claim_C8
    { message := some "Redis connection to 18.185.17.24:6379 failed - connect ECONNREFUSED" }
    "GET" (by decide)

/-- Claim C2 failing input: a record started at time 100 with no error,
completing at time 106 (duration 6 s, well above the default slow
threshold 1).  The finish handler runs `setLogType` BEFORE assigning
`info.duration`, so classification sees `undefined` duration and yields
`'c'` — slow classification never fires at completion, although the
final record's duration (6) exceeds the threshold (1). -/
theorem claim_C2_code_bug :
    (finishStep optsD (initSt infoD) 106 200).rLog.map LogRecord.type
      = some (some LType.c) ∧
    ((finishStep optsD (initSt infoD) 106 200).rLog.map fun r => r.info.duration)
      = some (some 6) ∧
    slowTimeOf optsD = 1 ∧ ((1 : ℚ) < 6) ∧
    evTruthyO infoD.error = false := by
  refine ⟨rfl, ?_, rfl, by norm_num, rfl⟩
  have hstep : (finishStep optsD (initSt infoD) 106 200).rLog.map
      (fun r => r.info.duration) = some (some (toPrecision3 (106 - 100))) := rfl
  have h6 : (106 : ℚ) - 100 = 6 := by norm_num
  have hd : toPrecision3 ((106 : ℚ) - 100) = 6 := by
    rw [h6]
    unfold toPrecision3
    rw [if_neg (by norm_num), if_pos (by norm_num)]
    unfold toPrecPos qExp
    rw [if_pos (by norm_num)]
    have hl : Nat.log 10 (Int.toNat ⌊(6 : ℚ)⌋) = 0 := by
      have hf : ⌊(6 : ℚ)⌋ = 6 := by norm_num
      rw [hf]
      simp [Nat.log_eq_zero_iff]
    rw [hl]
    norm_num
  rw [hstep, hd]

/-- Claim C5: at completion of a surviving record (default predicate),
`info.duration` is set to the completion time minus `info.time` rounded
to 3 significant digits, that value is nonnegative, and `info.status` is
set to the response status, all before the final write (the final
`processLog` runs only afterwards, at the `async.parallel` callback). -/
theorem claim_C5 : ∀ (opts : Options) (st : St) (r : LogRecord) (now : ℚ)
    (statusCode : Nat),
    opts.mustLogO = none → opts.logTypes = none →
    st.rLog = some r → r.info.time ≤ now →
    ((finishStep opts st now statusCode).rLog.map fun r' => r'.info.duration)
      = some (some (toPrecision3 (now - r.info.time))) ∧
    0 ≤ toPrecision3 (now - r.info.time) ∧
    ((finishStep opts st now statusCode).rLog.map fun r' => r'.info.status)
      = some (some statusCode) ∧
    (finishStep opts st now statusCode).writeTimeout = false := by
  intro opts st r now statusCode h1 h2 hr hle
  have hm : ∀ r' : LogRecord, mustLogB opts r' = true := mustLogB_default opts h1 h2
  refine ⟨?_, toPrecision3_nonneg _ (by linarith), ?_, ?_⟩ <;>
    simp [finishStep, hr, hm]

/-- Claim C5 witness at a concrete completion. -/
theorem claim_C5_witness :
    ((finishStep optsD (initSt infoD) 106 200).rLog.map fun r' => r'.info.duration)
      = some (some (toPrecision3 (106 - infoD.time))) ∧
    0 ≤ toPrecision3 (106 - infoD.time) ∧
    ((finishStep optsD (initSt infoD) 106 200).rLog.map fun r' => r'.info.status)
      = some (some 200) ∧
    (finishStep optsD (initSt infoD) 106 200).writeTimeout = false :=
  claim_C5 optsD (initSt infoD) { id := IdVal.null, info := infoD, type := none }
    106 200 rfl rfl rfl (by norm_num [infoD])

/-- A per-type TTL override mapping with a present-but-zero entry for
`completed`. -/
def ttlC6 : LType → Option Int := fun t => if t = LType.c then some 0 else none

/-- Claim C6 counterexample: with the per-type override `ttl.c = 0`
present, the write still uses the default 86400 — `0 || default` falls
through in JavaScript, so "override when present" is false as stated. -/
theorem claim_C6_counterexample :
    ttlC6 LType.c = some 0 ∧
    expireFor (some ttlC6) (some LType.c) = 86400 ∧
    (86400 : Int) ≠ 0 := by
  exact ⟨rfl, rfl, by decide⟩

/-- Claim C6 (amended): every write stores the serialized info at
`<prefix><type>:<id>` with a TTL taken from the per-type override when
present AND nonzero, else the type-specific defaults
pending/slow/error = 864000 s and completed = 86400 s. -/
theorem claim_C6_amended :
    (expireFor none (some LType.p) = 864000 ∧
     expireFor none (some LType.c) = 86400 ∧
     expireFor none (some LType.s) = 864000 ∧
     expireFor none (some LType.e) = 864000) ∧
    (∀ (f : LType → Option Int) (t : LType), f t = none →
      expireFor (some f) (some t) = defaultTtls t) ∧
    (∀ (f : LType → Option Int) (t : LType), f t = some 0 →
      expireFor (some f) (some t) = defaultTtls t) ∧
    (∀ (f : LType → Option Int) (t : LType) (v : Int), f t = some v → v ≠ 0 →
      expireFor (some f) (some t) = v) ∧
    (∀ (opts : Options) (pfx : String) (st : St) (r : LogRecord),
      st.rLog = some r → mustLogB opts r = true →
      (processLog opts pfx st).olog = st.olog ++ delOpsOf pfx st.currentType r ++
        [StoreOp.setexOp (buildKey pfx r.type r.id) (expireFor opts.ttl r.type)
          (serializeForWrite r.info).1]) := by
  refine ⟨⟨rfl, rfl, rfl, rfl⟩, ?_, ?_, ?_, ?_⟩
  · intro f t h
    simp [expireFor, h]
  · intro f t h
    simp [expireFor, h]
  · intro f t v h hv
    simp [expireFor, h, hv]
  · intro opts pfx st r hr hm
    exact processLog_olog opts pfx st r hr hm

/-- Claim C6 witness: concrete override lookups and a concrete write. -/
theorem claim_C6_witness :
    expireFor (some ttlC6) (some LType.p) = 864000 ∧
    expireFor (some (fun _ => some 7)) (some LType.e) = 7 ∧
    (processLog optsD pfxD (initSt infoD)).olog =
      [StoreOp.setexOp (buildKey pfxD none IdVal.null) (expireFor optsD.ttl none)
        (serializeForWrite infoD).1] :=
  ⟨claim_C6_amended.2.1 ttlC6 LType.p rfl,
   claim_C6_amended.2.2.2.1 (fun _ => some 7) LType.e 7 rfl (by decide),
   claim_C6_amended.2.2.2.2 optsD pfxD (initSt infoD)
     { id := IdVal.null, info := infoD, type := none } rfl rfl⟩

/-- A concrete `info` whose error field is the falsy number `0`. -/
def infoC7 : Info := { infoD with error := some (EVal.numVal 0) }

/-- Claim C7 counterexample: `info.error = 0` is present and not a plain
object, yet the code's truthiness guard skips the stringify-replacement:
the serialized text keeps the number `0`, not its string form `"0"`. -/
theorem claim_C7_counterexample :
    infoC7.error = some (EVal.numVal 0) ∧
    isPlainE (EVal.numVal 0) = false ∧
    (serializeForWrite infoC7).1 = stringifyInfo infoC7 ∧
    (serializeForWrite infoC7).1 ≠
      stringifyInfo { infoC7 with
        error := some (EVal.strVal (evToString (EVal.numVal 0))) } := by
  refine ⟨rfl, rfl, rfl, ?_⟩
  decide

/-- Claim C7 (amended): for every write where `info.error` is present,
TRUTHY, and not a plain structured object, the serialized text is that
of `info` with the error replaced by its string form, and afterwards the
in-memory `info` is unchanged (error restored, all other fields
untouched). -/
theorem claim_C7_amended : ∀ (i : Info) (e : EVal),
    i.error = some e → evTruthy e = true → isPlainE e = false →
    (serializeForWrite i).1 =
      stringifyInfo { i with error := some (EVal.strVal (evToString e)) } ∧
    (serializeForWrite i).2 = i := by
  intro i e he ht hp
  constructor
  · simp [serializeForWrite, he, ht, hp]
  · simp [serializeForWrite, he, ht, hp]
    cases i
    simp_all

/-- Claim C7 witness: a non-plain `Error`-like value is stringified for
the write and restored in memory. -/
theorem claim_C7_witness :
    (serializeForWrite { infoD with error := some (EVal.exotic "Error: boom") }).1 =
      stringifyInfo { infoD with
        error := some (EVal.strVal (evToString (EVal.exotic "Error: boom"))) } ∧
    (serializeForWrite { infoD with error := some (EVal.exotic "Error: boom") }).2 =
      { infoD with error := some (EVal.exotic "Error: boom") } :=
  claim_C7_amended { infoD with error := some (EVal.exotic "Error: boom") }
    (EVal.exotic "Error: boom") rfl rfl rfl

/-- Claim C4: `update()` while the delayed write is still scheduled is a
strict no-op (no classification, no store operation, state unchanged);
`update()` with no scheduled write and a live record reclassifies via
`setLogType` and issues a write of the current info (default predicate
configuration). -/
theorem claim_C4 : ∀ (opts : Options) (pfx : String) (st : St) (r : LogRecord),
    opts.mustLogO = none → opts.logTypes = none →
    st.rLog = some r →
    (st.writeTimeout = true → updateStep opts pfx st = st) ∧
    (st.writeTimeout = false →
      (updateStep opts pfx st).rLog =
        some { r with type := some (setLogType opts r.info) } ∧
      (updateStep opts pfx st).olog = st.olog ++
        delOpsOf pfx st.currentType { r with type := some (setLogType opts r.info) } ++
        [StoreOp.setexOp (buildKey pfx (some (setLogType opts r.info)) r.id)
          (expireFor opts.ttl (some (setLogType opts r.info)))
          (serializeForWrite r.info).1]) := by
  intro opts pfx st r h1 h2 hr
  have hm : ∀ r' : LogRecord, mustLogB opts r' = true := mustLogB_default opts h1 h2
  constructor
  · intro hw
    simp [updateStep, hr, hw]
  · intro hw
    have hkey : updateStep opts pfx st = processLog opts pfx
        { st with rLog := some { r with type := some (setLogType opts r.info) } } := by
      simp [updateStep, hr, hw]
    constructor
    · rw [hkey, processLog_rLog _ _ _ _ rfl (hm _)]
    · rw [hkey, processLog_olog _ _ _ _ rfl (hm _)]

/-- Claim C4 witness: a concrete no-op update (timer scheduled) and a
concrete writing update (timer already fired). -/
theorem claim_C4_witness :
    (updateStep optsD pfxD (initSt infoD) = initSt infoD) ∧
    ((updateStep optsD pfxD { initSt infoD with writeTimeout := false }).olog =
      [StoreOp.setexOp (buildKey pfxD (some (setLogType optsD infoD)) IdVal.null)
        (expireFor optsD.ttl (some (setLogType optsD infoD)))
        (serializeForWrite infoD).1]) := by
  constructor
  · exact (claim_C4 optsD pfxD (initSt infoD)
      { id := IdVal.null, info := infoD, type := none } rfl rfl rfl).1 rfl
  · have h := ((claim_C4 optsD pfxD { initSt infoD with writeTimeout := false }
      { id := IdVal.null, info := infoD, type := none } rfl rfl rfl).2 rfl).2
    simpa [initSt, delOpsOf] using h

/-- Discarded record: every later event leaves the record absent and
issues no store operation. -/
theorem step_noRecord (opts : Options) (pfx : String) (st : St) (e : Event)
    (h : st.rLog = none) :
    (step opts pfx st e).rLog = none ∧ (step opts pfx st e).store = st.store ∧
    (step opts pfx st e).olog = st.olog := by
  cases e <;>
    simp [step, timerStep, updateStep, ignoreStep, finishStep, idStep,
      parallelStep, processLog, h] <;>
    split <;> simp [h]

/-- Discarded record: an entire later event sequence preserves the store
and the operation log. -/
theorem run_noRecord (opts : Options) (pfx : String) :
    ∀ (evs : List Event) (st : St), st.rLog = none →
    (run opts pfx st evs).rLog = none ∧
    (run opts pfx st evs).store = st.store ∧
    (run opts pfx st evs).olog = st.olog := by
  intro evs
  induction evs with
  | nil => intro st h; exact ⟨h, rfl, rfl⟩
  | cons e es ih =>
    intro st h
    have h1 := step_noRecord opts pfx st e h
    have h2 := ih _ h1.1
    exact ⟨h2.1, h2.2.1.trans h1.2.1, h2.2.2.trans h1.2.2⟩

/-- Claim C3: `ignore()` called before any store write cancels the
scheduled timer, discards the record, and guarantees zero store
operations for the request under every later event sequence (updates,
completion, timer, final callback included). -/
theorem claim_C3 : ∀ (opts : Options) (pfx : String) (st : St) (evs : List Event),
    st.store = [] → st.olog = [] →
    (ignoreStep st).writeTimeout = false ∧
    (ignoreStep st).rLog = none ∧
    (run opts pfx (ignoreStep st) evs).olog = [] ∧
    (run opts pfx (ignoreStep st) evs).store = [] := by
  intro opts pfx st evs hs ho
  have h := run_noRecord opts pfx evs (ignoreStep st) rfl
  exact ⟨rfl, rfl, h.2.2.trans ho, h.2.1.trans hs⟩

/-- Claim C3 witness: ignore then timer, update, completion and final
callback — no operation is ever issued. -/
theorem claim_C3_witness :
    (run optsD pfxD (ignoreStep (initSt infoD))
      [Event.timerFire, Event.doUpdate, Event.rfinish 106 200,
       Event.parallelDone false]).olog = [] ∧
    (run optsD pfxD (ignoreStep (initSt infoD))
      [Event.timerFire, Event.doUpdate, Event.rfinish 106 200,
       Event.parallelDone false]).store = [] := by
  have h := claim_C3 optsD pfxD (initSt infoD)
    [Event.timerFire, Event.doUpdate, Event.rfinish 106 200,
     Event.parallelDone false] rfl rfl
  exact ⟨h.2.2.1, h.2.2.2⟩

/-! ## Single-entry invariant machinery (claim C1) -/

/-- Keys below a singleton key list. -/
theorem forall_of_map_fst (s : List (String × String)) (k : String)
    (h : s.map Prod.fst = [k]) : ∀ kv ∈ s, kv.1 = k := by
  intro kv hkv
  have h2 := List.mem_map_of_mem Prod.fst hkv
  rw [h] at h2
  simpa using h2

/-- Deleting the key every entry carries empties the store. -/
theorem storeDel_self (s : List (String × String)) (k : String)
    (h : ∀ kv ∈ s, kv.1 = k) : storeDel s k = [] := by
  unfold storeDel
  rw [List.filter_eq_nil_iff]
  rintro ⟨a, b⟩ hab
  simpa using h ⟨a, b⟩ hab

/-- After `SETEX`, the store keys collapse to the written key when every
prior entry already carried it. -/
theorem map_fst_storeSet (s : List (String × String)) (k v : String)
    (h : ∀ kv ∈ s, kv.1 = k) : (storeSet s k v).map Prod.fst = [k] := by
  unfold storeSet
  have h2 : s.filter (fun kv => kv.1 ≠ k) = [] := by
    rw [List.filter_eq_nil_iff]
    rintro ⟨a, b⟩ hab
    simpa using h ⟨a, b⟩ hab
  simp [h2]
  intro a b hab
  exact h ⟨a, b⟩ hab

/-- The invariant bounds the store to at most one entry per record. -/
theorem storeOk_length (pfx : String) (st : St) (h : storeOkB pfx st = true) :
    st.store.length ≤ 1 := by
  unfold storeOkB at h
  cases hct : st.currentType with
  | none =>
    rw [hct] at h
    simp [List.isEmpty_iff.mp h]
  | some t =>
    rw [hct] at h
    cases hr : st.rLog with
    | some r =>
      rw [hr] at h
      have h2 : st.store.map Prod.fst = [buildKey pfx (some t) r.id] := by
        simpa using h
      have h3 := congrArg List.length h2
      simp at h3
      omega
    | none =>
      rw [hr] at h
      simp at h
      omega


/-- A performed or skipped write preserves the invariant, provided the
record (if alive) has its type set. -/
theorem invB_processLog (opts : Options) (pfx : String) (st : St)
    (hty : ∀ r, st.rLog = some r → r.type.isSome = true)
    (hinv : invB pfx st = true) :
    invB pfx (processLog opts pfx st) = true := by
  cases hr : st.rLog with
  | none => rw [processLog_none opts pfx st hr]; exact hinv
  | some r =>
    by_cases hm : mustLogB opts r = true
    case neg =>
      rw [processLog_reject opts pfx st r hr (by simpa using hm)]
      exact hinv
    case pos =>
      obtain ⟨ty, hty2⟩ := Option.isSome_iff_exists.mp (hty r hr)
      simp only [invB, Bool.and_eq_true] at hinv
      obtain ⟨hinv1, hinv2⟩ := hinv
      simp only [invB, Bool.and_eq_true]
      constructor
      · -- storeOkB of the new state
        unfold processLog
        rw [hr]
        simp only [hm, if_true]
        unfold storeOkB
        simp only [hty2]
        cases hct : st.currentType with
        | none =>
          unfold storeOkB at hinv1
          rw [hct] at hinv1
          have he : st.store = [] := List.isEmpty_iff.mp hinv1
          simp [storeAfterDel, he, storeSet, hty2]
        | some old =>
          unfold storeOkB at hinv1
          rw [hct, hr] at hinv1
          have hkeys : ∀ kv ∈ st.store, kv.1 = buildKey pfx (some old) r.id :=
            forall_of_map_fst _ _ (by simpa using hinv1)
          by_cases heq : some old = r.type
          · have hkeys2 : ∀ kv ∈ st.store, kv.1 = buildKey pfx (some ty) r.id := by
              rw [← hty2, ← heq]
              exact hkeys
            simp [storeAfterDel, heq, hty2, map_fst_storeSet _ _ _ hkeys2]
          · have hne : some old ≠ r.type := heq
            have hdel : storeDel st.store (buildKey pfx (some old) r.id) = [] :=
              storeDel_self _ _ hkeys
            have hsad : storeAfterDel pfx (some old) r st.store = [] := by
              simp [storeAfterDel, hne, hdel]
            rw [hsad]
            simp [storeSet]
      · -- typedOkB: finished and the record's type are unchanged
        unfold processLog
        rw [hr]
        simp only [hm, if_true]
        unfold typedOkB at hinv2 ⊢
        rw [hr] at hinv2
        simpa using hinv2

/-- `storeOkB` only looks at `currentType`, the store, and the record's
id. -/
theorem storeOkB_congr (pfx : String) (st' st : St)
    (h1 : st'.currentType = st.currentType) (h2 : st'.store = st.store)
    (h3 : st'.rLog.map LogRecord.id = st.rLog.map LogRecord.id) :
    storeOkB pfx st' = storeOkB pfx st := by
  unfold storeOkB
  rw [h1, h2]
  cases hct : st.currentType with
  | none => rfl
  | some t =>
    cases hr : st.rLog with
    | some r =>
      cases hr' : st'.rLog with
      | some r' =>
        rw [hr, hr'] at h3
        simp only [Option.map_some'] at h3
        simp [Option.some.inj h3]
      | none => rw [hr, hr'] at h3; simp at h3
    | none =>
      cases hr' : st'.rLog with
      | some r' => rw [hr, hr'] at h3; simp at h3
      | none => rfl

/-- A state change that keeps `currentType`, the store and the record's
id (allowing type/info mutation, discard excepted) preserves the
invariant, provided a typed record is kept whenever `finished` is set. -/
theorem invB_keepStore (pfx : String) (st : St) (rl' : Option LogRecord)
    (wt ft : Bool) (hinv : invB pfx st = true)
    (hid : rl'.map LogRecord.id = st.rLog.map LogRecord.id)
    (hty : ft = true → ∀ r, rl' = some r → r.type.isSome = true) :
    invB pfx { st with rLog := rl', writeTimeout := wt, finished := ft } = true := by
  simp only [invB, Bool.and_eq_true] at hinv ⊢
  constructor
  · rw [storeOkB_congr pfx
      { st with rLog := rl', writeTimeout := wt, finished := ft } st rfl rfl hid]
    exact hinv.1
  · unfold typedOkB
    cases ft with
    | false => simp
    | true =>
      cases hr' : rl' with
      | none => simp
      | some r' => simp [hty rfl r' hr']

/-- Discarding the record preserves the invariant for any timer/finished
flags. -/
theorem invB_dropRecord (pfx : String) (st : St) (wt ft : Bool)
    (hinv : invB pfx st = true) :
    invB pfx { st with rLog := none, writeTimeout := wt, finished := ft } = true := by
  simp only [invB, Bool.and_eq_true] at hinv ⊢
  constructor
  · have h1 := hinv.1
    unfold storeOkB at h1 ⊢
    cases hct : st.currentType with
    | none => rw [hct] at h1; simpa using h1
    | some t =>
      rw [hct] at h1
      cases hr : st.rLog with
      | some r =>
        rw [hr] at h1
        have h3 : st.store.map Prod.fst = [buildKey pfx (some t) r.id] := by
          simpa using h1
        have h4 := congrArg List.length h3
        simp only [List.length_map, List.length_singleton] at h4
        simpa using h4
      | none => rw [hr] at h1; simpa using h1
  · unfold typedOkB
    simp

/-- Assigning the id while the store is still empty preserves the
invariant. -/
theorem invB_idStep (pfx : String) (st : St) (v : IdVal)
    (hg : st.store.isEmpty = true) (hinv : invB pfx st = true) :
    invB pfx (idStep st v) = true := by
  unfold idStep
  cases hr : st.rLog with
  | none => exact hinv
  | some r =>
    simp only [invB, Bool.and_eq_true] at hinv ⊢
    constructor
    · have h1 := hinv.1
      unfold storeOkB at h1 ⊢
      cases hct : st.currentType with
      | none => rw [hct] at h1; simpa using h1
      | some t =>
        rw [hct, hr] at h1
        have he : st.store = [] := List.isEmpty_iff.mp hg
        rw [he] at h1
        simp at h1
    · have h2 := hinv.2
      unfold typedOkB at h2 ⊢
      rw [hr] at h2
      simpa using h2

/-- Timer callback equations. -/
theorem timerStep_skip (opts : Options) (pfx : String) (st : St)
    (hw : st.writeTimeout = false) : timerStep opts pfx st = st := by
  simp [timerStep, hw]

/-- Timer firing with the record already discarded. -/
theorem timerStep_none (opts : Options) (pfx : String) (st : St)
    (hw : st.writeTimeout = true) (h : st.rLog = none) :
    timerStep opts pfx st = { st with writeTimeout := false } := by
  simp [timerStep, hw, h]

/-- Timer firing on a live record: set type pending and write. -/
theorem timerStep_fire (opts : Options) (pfx : String) (st : St) (r : LogRecord)
    (hw : st.writeTimeout = true) (hr : st.rLog = some r) :
    timerStep opts pfx st = processLog opts pfx
      { st with rLog := some { r with type := some LType.p }, writeTimeout := false } := by
  simp [timerStep, hw, hr]

/-- `update()` on a discarded record. -/
theorem updateStep_none (opts : Options) (pfx : String) (st : St)
    (h : st.rLog = none) : updateStep opts pfx st = st := by
  simp [updateStep, h]

/-- `update()` while a write is scheduled. -/
theorem updateStep_skip (opts : Options) (pfx : String) (st : St) (r : LogRecord)
    (hr : st.rLog = some r) (hw : st.writeTimeout = true) :
    updateStep opts pfx st = st := by
  simp [updateStep, hr, hw]

/-- `update()` with no scheduled write: reclassify and write. -/
theorem updateStep_write (opts : Options) (pfx : String) (st : St) (r : LogRecord)
    (hr : st.rLog = some r) (hw : st.writeTimeout = false) :
    updateStep opts pfx st = processLog opts pfx
      { st with rLog := some { r with type := some (setLogType opts r.info) } } := by
  simp [updateStep, hr, hw]

/-- Completion with the record already discarded: only `finished` flips. -/
theorem finishStep_none (opts : Options) (st : St) (now : ℚ) (sc : Nat)
    (h : st.rLog = none) :
    finishStep opts st now sc = { st with finished := true } := by
  simp [finishStep, h]

/-- Completion keeping the record: classified type, duration and status
set, timer cleared. -/
theorem finishStep_keep (opts : Options) (st : St) (r : LogRecord) (now : ℚ)
    (sc : Nat)
    (hm : mustLogB opts { r with type := some (setLogType opts r.info) } = true)
    (hr : st.rLog = some r) :
    finishStep opts st now sc =
      { st with
        rLog := some
          { id := r.id,
            info := { r.info with
              duration := some (toPrecision3 (now - r.info.time)),
              status := some sc },
            type := some (setLogType opts r.info) },
        writeTimeout := false,
        finished := true } := by
  simp [finishStep, hr, hm]

/-- Completion with `mustLog` rejecting the classified record: the
record self-ignores. -/
theorem finishStep_drop (opts : Options) (st : St) (r : LogRecord) (now : ℚ)
    (sc : Nat)
    (hm : mustLogB opts { r with type := some (setLogType opts r.info) } = false)
    (hr : st.rLog = some r) :
    finishStep opts st now sc =
      { st with rLog := none, writeTimeout := false, finished := true } := by
  simp [finishStep, hr, hm, ignoreStep]

/-- Every schedulable event preserves the single-entry invariant. -/
theorem invB_step (opts : Options) (pfx : String) (st : St) (e : Event)
    (hinv : invB pfx st = true) (hg : goodEv st e = true) :
    invB pfx (step opts pfx st e) = true := by
  cases e with
  | timerFire =>
    show invB pfx (timerStep opts pfx st) = true
    by_cases hw : st.writeTimeout = true
    · cases hr : st.rLog with
      | none =>
        rw [timerStep_none opts pfx st hw hr]
        refine invB_keepStore pfx st st.rLog false st.finished hinv rfl ?_
        intro _ r' h
        rw [hr] at h
        simp at h
      | some r =>
        rw [timerStep_fire opts pfx st r hw hr]
        apply invB_processLog
        · intro r' hr'
          simp only [Option.some.injEq] at hr'
          rw [← hr']
          rfl
        · refine invB_keepStore pfx st _ false st.finished hinv ?_ ?_
          · rw [hr]
            rfl
          · intro _ r' h
            rw [← Option.some.inj h]
            rfl
    · rw [timerStep_skip opts pfx st (by simpa using hw)]
      exact hinv
  | doUpdate =>
    show invB pfx (updateStep opts pfx st) = true
    cases hr : st.rLog with
    | none =>
      rw [updateStep_none opts pfx st hr]
      exact hinv
    | some r =>
      by_cases hw : st.writeTimeout = false
      · rw [updateStep_write opts pfx st r hr hw]
        apply invB_processLog
        · intro r' hr'
          simp only [Option.some.injEq] at hr'
          rw [← hr']
          rfl
        · refine invB_keepStore pfx st _ st.writeTimeout st.finished hinv ?_ ?_
          · rw [hr]
            rfl
          · intro _ r' h
            rw [← Option.some.inj h]
            rfl
      · rw [updateStep_skip opts pfx st r hr (by simpa using hw)]
        exact hinv
  | doIgnore =>
    exact invB_dropRecord pfx st false st.finished hinv
  | idAssigned v =>
    exact invB_idStep pfx st v hg hinv
  | rfinish now sc =>
    show invB pfx (finishStep opts st now sc) = true
    cases hr : st.rLog with
    | none =>
      rw [finishStep_none opts st now sc hr]
      refine invB_keepStore pfx st st.rLog st.writeTimeout true hinv rfl ?_
      intro _ r' h
      rw [hr] at h
      simp at h
    | some r =>
      by_cases hm : mustLogB opts { r with type := some (setLogType opts r.info) } = true
      · rw [finishStep_keep opts st r now sc hm hr]
        refine invB_keepStore pfx st _ false true hinv ?_ ?_
        · rw [hr]
          rfl
        · intro _ r' h
          rw [← Option.some.inj h]
          rfl
      · rw [finishStep_drop opts st r now sc (by simpa using hm) hr]
        exact invB_dropRecord pfx st false true hinv
  | parallelDone err =>
    show invB pfx (parallelStep opts pfx err st) = true
    unfold parallelStep
    by_cases he : err = true
    · rw [if_pos he]
      exact hinv
    · rw [if_neg he]
      apply invB_processLog
      · intro r hr
        have h2 : typedOkB st = true := by
          simp only [invB, Bool.and_eq_true] at hinv
          exact hinv.2
        unfold typedOkB at h2
        have hf : st.finished = true := hg
        rw [hf, hr] at h2
        simpa using h2
      · exact hinv

/-- A schedulable event sequence preserves the single-entry invariant. -/
theorem invB_run (opts : Options) (pfx : String) :
    ∀ (evs : List Event) (st : St), invB pfx st = true →
    goodRunB opts pfx st evs = true →
    invB pfx (run opts pfx st evs) = true := by
  intro evs
  induction evs with
  | nil => intro st h _; exact h
  | cons e es ih =>
    intro st h hg
    unfold goodRunB at hg
    rw [Bool.and_eq_true] at hg
    exact ih _ (invB_step opts pfx st e h hg.1) hg.2

/-- The racing schedule refuting claim C1 as stated: the Redis `INCR`
response arrives only after the 4-second timer fired, so the pending
write used id `null`; the completion write then deletes
`<prefix>p:<currentId>` — not the key that was actually written. -/
def evC1 : List Event :=
  [Event.timerFire, Event.idAssigned (IdVal.num 7), Event.rfinish 106 200,
   Event.parallelDone false]

/-- The well-ordered schedule (id assigned before any write) used as
witness for the amended claim. -/
def evGoodC1 : List Event :=
  [Event.idAssigned (IdVal.num 7), Event.timerFire, Event.rfinish 106 200,
   Event.parallelDone false]

/-- Claim C1 counterexample: under the schedule `evC1` (possible when
the `INCR` round-trip exceeds the 4000 ms write delay), the completion
write under a changed type leaves TWO store entries for the record: the
stale `rLog:proj:p:null` survives because the delete was issued for
`rLog:proj:p:7`, the key built with the record's current id. -/
theorem claim_C1_counterexample :
    (run optsD pfxD (initSt infoD) evC1).store.length = 2 ∧
    "rLog:proj:p:null" ∈ (run optsD pfxD (initSt infoD) evC1).store.map Prod.fst ∧
    StoreOp.delOp "rLog:proj:p:7" ∈ (run optsD pfxD (initSt infoD) evC1).olog := by
  refine ⟨?_, ?_, ?_⟩ <;> decide

/-- Claim C1 (amended): a write issues the delete of
`<prefix><oldType>:<currentId>` (before the `SETEX`) exactly when a
prior write exists under a different type, and no delete otherwise; and
provided the id never changes once a write has landed (`goodRunB`, in
particular when the id is assigned before the first write), at most one
store entry exists per record at any time. -/
theorem claim_C1_amended :
    (∀ (opts : Options) (pfx : String) (st : St) (r : LogRecord),
      st.rLog = some r → mustLogB opts r = true →
      ((processLog opts pfx st).olog = st.olog ++ delOpsOf pfx st.currentType r ++
        [StoreOp.setexOp (buildKey pfx r.type r.id) (expireFor opts.ttl r.type)
          (serializeForWrite r.info).1] ∧
       (∀ old, st.currentType = some old → some old ≠ r.type →
         delOpsOf pfx st.currentType r =
           [StoreOp.delOp (buildKey pfx (some old) r.id)]) ∧
       (st.currentType = none ∨ st.currentType = r.type →
         delOpsOf pfx st.currentType r = []))) ∧
    (∀ (opts : Options) (pfx : String) (st : St) (evs : List Event),
      invB pfx st = true → goodRunB opts pfx st evs = true →
      invB pfx (run opts pfx st evs) = true) ∧
    (∀ (pfx : String) (st : St), invB pfx st = true → st.store.length ≤ 1) := by
  refine ⟨?_, ?_, ?_⟩
  · intro opts pfx st r hr hm
    refine ⟨processLog_olog opts pfx st r hr hm, ?_, ?_⟩
    · intro old hct hne
      simp [delOpsOf, hct, hne]
    · rintro (hct | hct)
      · simp [delOpsOf, hct]
      · cases hh : st.currentType with
        | none => simp [delOpsOf]
        | some old =>
          rw [hh] at hct
          simp [delOpsOf, hct]
  · intro opts pfx st evs h hg
    exact invB_run opts pfx evs st h hg
  · intro pfx st h
    apply storeOk_length pfx st
    simp only [invB, Bool.and_eq_true] at h
    exact h.1
/-- Claim C1 witness: a concrete well-ordered request (id assigned, then
pending write, then completion write with type change) keeps the
invariant: one store entry at the end. -/
theorem claim_C1_amended_witness :
    invB pfxD (run optsD pfxD (initSt infoD) evGoodC1) = true ∧
    (run optsD pfxD (initSt infoD) evGoodC1).store.length ≤ 1 := by
  have h1 : invB pfxD (initSt infoD) = true := by decide
  have h2 : goodRunB optsD pfxD (initSt infoD) evGoodC1 = true := by decide
  have h3 := claim_C1_amended.2.1 optsD pfxD (initSt infoD) evGoodC1 h1 h2
  exact ⟨h3, claim_C1_amended.2.2 pfxD _ h3⟩
